import Mathlib

/-!
# Verification of the hybrid retrieval core of `clever-docu-chat-buddy`

Shallow embedding of the retrieval/synthesis core found in
`backend/app/rag_utils.py` and `backend/app/main.py`:

* the access-controlled semantic search (`VectorStore.search_semantic`),
* the cosine similarity scorer (`VectorStore._cosine_similarity`),
* the SQL generation / validation / execution pipeline
  (`VectorStore._generate_sql_query`, `VectorStore._execute_sql_query`),
* the per-file orchestration loop and aggregation of the `/api/chat`
  endpoint (`main.chat`),
* the answer synthesizer (`VectorStore.generate_insights_from_chunks`),
* the access predicate `main.can_access_file`.

Strings manipulated by the SQL pipeline are embedded as `List Char` so
that every transformation is an executable structural recursion.
Similarity scores in the search pipeline are embedded as `ℚ` and the
pipeline is parametric in the scoring function (the numeric analysis of
the cosine scorer itself is carried out over `ℝ` separately).
-/

namespace DocuChat

/-! ## Data model (`backend/app/models.py`)

`User.role` is a Python `enum.Enum` member (`UserRole`), `File.restricted_users`
is the association list of user ids allowed on a restricted file. -/

inductive UserRole where
  | admin
  | manager
  | employee
deriving DecidableEq, Repr

/-- A Python value appearing in an equality test of the embedded code:
either a `UserRole` enum member or a `str`.  Python's `==` between an
`enum.Enum` member and a `str` is always `False` (no coercion), which
`pyEq` reproduces; this is load-bearing for `rag_utils`, whose role
checks compare `current_user.role` (an enum member) with the string
`'admin'`. -/
inductive PyVal where
  | enumRole (r : UserRole)
  | pyStr (s : String)
deriving DecidableEq, Repr

def pyEq : PyVal → PyVal → Bool
  | .enumRole a, .enumRole b => a == b
  | .pyStr a, .pyStr b => a == b
  | _, _ => false

structure UserM where
  id : Nat
  role : UserRole
deriving DecidableEq, Repr

structure FileM where
  id : Nat
  /-- ids in `file.restricted_users` -/
  restricted : List Nat
deriving DecidableEq, Repr

/-- A chunk row as enumerated by one of the modality sections of
`search_semantic`, with its owning file (the ORM `joinedload` of
`chunk.document.file`).  `embedding = none` models a null or unparseable
embedding (the `if not chunk.embedding` / `json.JSONDecodeError` skips);
`modality` is the lowercase section tag (`"pdf"`, `"csv"`, `"xlsx"`,
`"website"`). -/
structure ChunkM where
  id : Nat
  file : FileM
  modality : String
  embedding : Option (List ℚ)
  content : String
deriving DecidableEq, Repr

/-- The store as `search_semantic` enumerates it: `chunks` is the
concatenation, in code order, of the rows returned for the PDF, CSV,
XLSX and Website sections (the database's enumeration order). -/
structure StoreM where
  chunks : List ChunkM
deriving DecidableEq, Repr

/-- One element of the `results` list built by `search_semantic`. -/
structure ResultM where
  chunk : ChunkM
  score : ℚ
deriving DecidableEq, Repr

/-! ## `main.can_access_file` (`backend/app/main.py`, lines 314-325)

This predicate compares the role against the enum member `UserRole.ADMIN`
(not against a string). -/

def canAccessFile (f : FileM) (u : UserM) : Bool :=
  if u.role = UserRole.admin then true
  else if f.restricted ≠ [] then f.restricted.contains u.id
  else true

/-! ## `VectorStore.search_semantic` (`backend/app/rag_utils.py`, lines 52-384) -/

/-- The access filter each modality section applies for a non-admin user:
`File.restricted_users.any(id=current_user.id)` or
`~File.restricted_users.any()` (an allow-list). -/
def fileAllows (u : UserM) (f : FileM) : Bool :=
  f.restricted.contains u.id || f.restricted.isEmpty

/-- Whether a modality section runs:
`file_type is None or file_type.lower() == '<tag>'`. -/
def modalityMatches (fileType : Option String) (c : ChunkM) : Bool :=
  match fileType with
  | none => true
  | some t => c.modality == t.toLower

/-- The chunks that become scoring candidates.  The guard in the code is
`if current_user and current_user.role != 'admin'`, where the role is a
`UserRole` enum member and `'admin'` a string, so `pyEq` decides the
comparison. -/
def candidateChunks (store : StoreM) (fileType : Option String)
    (user : Option UserM) : List ChunkM :=
  let byType := store.chunks.filter (modalityMatches fileType)
  match user with
  | none => byType
  | some u =>
    if pyEq (.enumRole u.role) (.pyStr "admin") then byType
    else byType.filter (fun c => fileAllows u c.file)

/-- The per-chunk scoring of a candidate list: skip chunks with missing
or unparseable embeddings, keep a result when `similarity >= min_score`. -/
def scoreOne (sim : List ℚ → List ℚ → ℚ) (qEmb : List ℚ)
    (minScore : ℚ) (c : ChunkM) : Option ResultM :=
  match c.embedding with
  | none => none
  | some e =>
    if minScore ≤ sim qEmb e then some ⟨c, sim qEmb e⟩ else none

def scoredResults (sim : List ℚ → List ℚ → ℚ) (qEmb : List ℚ)
    (minScore : ℚ) (cands : List ChunkM) : List ResultM :=
  cands.filterMap (scoreOne sim qEmb minScore)

/-- The comparison used by `results.sort(key=lambda x: x['score'], reverse=True)`:
a stable sort that puts higher scores first. -/
def scoreLe (a b : ResultM) : Bool := decide (b.score ≤ a.score)

/-- The function `search_semantic`, parametric in the similarity function `sim`
(the code calls `self._cosine_similarity`).  `qEmb = none` or an empty
embedding models `if not query_embedding: return []`. -/
def searchSemantic (sim : List ℚ → List ℚ → ℚ) (store : StoreM)
    (qEmb : Option (List ℚ)) (limit : Nat) (minScore : ℚ)
    (fileType : Option String) (user : Option UserM) : List ResultM :=
  match qEmb with
  | none => []
  | some q =>
    if q.isEmpty then []
    else
      ((scoredResults sim q minScore
          (candidateChunks store fileType user)).mergeSort scoreLe).take limit

/-! ## Turn-level aggregation (`backend/app/main.py`, lines 430-438) -/

def responseType {α β : Type} (sqlResults : List α) (semanticResults : List β) : String :=
  if !sqlResults.isEmpty && !semanticResults.isEmpty then "hybrid"
  else if !sqlResults.isEmpty then "sql_primary"
  else if !semanticResults.isEmpty then "semantic_primary"
  else "no_results"

/-! ## Python string primitives

Executable embeddings of `str.strip()`, `str.lower()` on `List Char`
(they agree with Python on the ASCII text these code paths handle). -/

def lowerL (l : List Char) : List Char := l.map Char.toLower

/-- Python `str.strip()`, left part. -/
def trimLeftL : List Char → List Char
  | [] => []
  | c :: cs => if c.isWhitespace then trimLeftL cs else c :: cs

/-- Python `str.strip()`, right part. -/
def trimRightL : List Char → List Char
  | [] => []
  | c :: cs =>
    let r := trimRightL cs
    if r = [] ∧ c.isWhitespace then [] else c :: r

/-- Python `str.strip()`. -/
def stripL (l : List Char) : List Char := trimRightL (trimLeftL l)

/-- Python `s.strip().lower()` on `String`. -/
def pyStripLower (s : String) : String := String.mk (lowerL (stripL s.toList))

/-! ## The per-file orchestration loop of `main.chat`
(`backend/app/main.py`, lines 368-426)

For each accessible file the endpoint first runs a retrieval-path
decision step (for SQL-capable csv/xlsx files this is a completion-
provider call, *outside* any per-file `try`), then dispatches the
chosen engine inside a `try/except` that logs and continues.  External
calls are embedded as `Except String _` values carried by the file
record: `.error e` models the call raising exception `e`.  Engine
contributions are the pairs of entries appended to `all_sql_results`
and `all_semantic_results` (payloads abstracted to `Nat`). -/

structure FileProcM where
  /-- Python `file.file_type.value in ["csv","xlsx"] and file.rag_type == RagType.SQL` -/
  sqlCapable : Bool
  /-- result of the agent-decision completion call (`chat.ainvoke(...)`),
  the raw `decision_response.content` -/
  decideStep : Except String String
  /-- contribution of `hybrid_sql_semantic_search` under the `'sql'` branch -/
  runSql : Except String (List Nat × List Nat)
  /-- contribution of `hybrid_sql_semantic_search` under the `'hybrid'` branch -/
  runHybrid : Except String (List Nat × List Nat)
  /-- contribution of `search_semantic` under the default branch -/
  runSemantic : Except String (List Nat × List Nat)

/-- The value `rag_decision`: defaults to `'semantic'`; for a SQL-capable file it is
`decision_response.content.strip().lower()` — and the decision call is
not wrapped in a per-file `try`, so its exception propagates. -/
def ragDecision (f : FileProcM) : Except String String :=
  if f.sqlCapable then f.decideStep.map pyStripLower
  else .ok "semantic"

/-- Which engine the loop body dispatches for a decision string. -/
def dispatchRun (f : FileProcM) (d : String) : Except String (List Nat × List Nat) :=
  if d = "sql" then f.runSql
  else if d = "hybrid" then f.runHybrid
  else f.runSemantic

/-- The `for file in files:` loop of `main.chat`.  A dispatched engine
call sits inside `try/except` (log, skip the file); the decision step
does not, so its error aborts the loop (it is caught only by the
turn-level handler, which replaces the whole response). -/
def chatLoop : List FileProcM → Except String (List Nat × List Nat)
  | [] => .ok ([], [])
  | f :: fs =>
    match ragDecision f with
    | .error e => .error e
    | .ok d =>
      let contrib := match dispatchRun f d with
        | .ok c => c
        | .error _ => ([], [])
      match chatLoop fs with
      | .error e => .error e
      | .ok (sq, se) => .ok (contrib.1 ++ sq, contrib.2 ++ se)

/-- Whether an embedded external call returned normally. -/
def exceptIsOk {ε α : Type} : Except ε α → Bool
  | .ok _ => true
  | .error _ => false

/-- What one file adds to the accumulators when its decision step does
not raise (engine errors contribute nothing). -/
def fileContrib (f : FileProcM) : List Nat × List Nat :=
  match ragDecision f with
  | .error _ => ([], [])
  | .ok d =>
    match dispatchRun f d with
    | .ok c => c
    | .error _ => ([], [])

/-- The accumulators after the whole loop, assuming no decision step raised. -/
def aggregateRuns : List FileProcM → List Nat × List Nat
  | [] => ([], [])
  | f :: fs =>
    ((fileContrib f).1 ++ (aggregateRuns fs).1,
     (fileContrib f).2 ++ (aggregateRuns fs).2)

/-! ## `VectorStore.generate_insights_from_chunks`
(`backend/app/rag_utils.py`, lines 444-598)

Only the result shape matters here: `success` is embedded as
`Option Bool` because the early-return dictionary for an empty chunk
list (lines 462-466) carries **no** `"success"` key at all, while the
normal path sets it to `True` and the exception path to `False`.
`llmCalled` records whether the completion provider was invoked. -/

structure SemChunkM where
  content : String
  filename : String
  source : String
  ctype : String
  score : ℚ
deriving DecidableEq, Repr

structure InsightsOut where
  response : String
  sources : List String
  success : Option Bool
  llmCalled : Bool
deriving DecidableEq, Repr

/-- The fixed empty-input response text (line 464). -/
def noInfoMsg : String :=
  "I couldn't find any relevant information to answer your question based on the available documents."

/-- First-seen deduplication of `f"{filename} ({source})"` keys (lines 524-544). -/
def dedupByKey (seen : List String) : List SemChunkM → List SemChunkM
  | [] => []
  | c :: cs =>
    let key := c.filename ++ " (" ++ c.source ++ ")"
    if seen.contains key then dedupByKey seen cs
    else c :: dedupByKey (key :: seen) cs

/-- The string formatting of one deduplicated source (lines 547-558). -/
def formatSource (c : SemChunkM) : String :=
  c.filename
    ++ (if c.source ≠ "" then " (Page " ++ c.source ++ ")" else "")
    ++ (if c.ctype ≠ "" then " - " ++ c.ctype else "")

/-- The function `generate_insights_from_chunks`, with the completion provider
abstracted as `llm` (fed the query; the context block built from the
chunks only shapes the prompt text).  The empty-input early return is
lines 461-466 verbatim: fixed response, empty sources, and a dictionary
with no `success` key, before any model call. -/
def generateInsights (llm : String → String) (query : String)
    (chunks : List SemChunkM) : InsightsOut :=
  if chunks.isEmpty then
    { response := noInfoMsg, sources := [], success := none, llmCalled := false }
  else
    let responseText := llm query
    let formatted := (dedupByKey [] chunks).map formatSource
    { response := responseText
      sources := formatted
      success := some true
      llmCalled := true }

/-! ## The SQL generation / validation / execution pipeline
(`backend/app/rag_utils.py`, lines 709-790)

Python strings are embedded as `List Char`.  `Char.toLower`,
`Char.isWhitespace` and `Char.isAlpha` coincide with Python's
`str.lower`, `str.strip` and the regex class `[a-zA-Z]` on the ASCII
text this pipeline handles. -/

/-- The backtick character (kept out of literals). -/
def backtick : Char := Char.ofNat 96

/-- Python `s.lower().startswith('select')`. -/
def startsWithSelect (l : List Char) : Bool :=
  lowerL (l.take 6) == "select".toList

/-- Python ``re.sub(r'^```[a-zA-Z]*\n?', '', s)``: remove one opening markdown
fence (three backticks, a language tag, an optional newline) at the very
start. -/
def dropFenceOpen (l : List Char) : List Char :=
  match l with
  | a :: b :: c :: rest =>
    if a = backtick ∧ b = backtick ∧ c = backtick then
      match rest.dropWhile Char.isAlpha with
      | [] => []
      | d :: r => if d = '\n' then r else d :: r
    else l
  | _ => l

/-- Python ``re.sub(r'```$', '', s)``: without `re.MULTILINE`, `$` matches at the
end of the string or just before a final newline, so a closing fence is
removed in either position. -/
def dropFenceClose (l : List Char) : List Char :=
  match l.reverse with
  | a :: b :: c :: rest =>
    if a = backtick ∧ b = backtick ∧ c = backtick then rest.reverse
    else
      match rest with
      | d :: rest2 =>
        if a = '\n' ∧ b = backtick ∧ c = backtick ∧ d = backtick then
          rest2.reverse ++ ['\n']
        else l
      | [] => l
  | _ => l

/-- Prefix of the input up to and including its first `';'` (if any). -/
def takeUptoSemi : List Char → Option (List Char)
  | [] => none
  | c :: cs => if c = ';' then some [';'] else (takeUptoSemi cs).map (c :: ·)

/-- Given a list starting with a case-insensitive `SELECT`, the shortest
match of ``SELECT[\s\S]+?;`` anchored at its head: the six `SELECT`
characters, at least one further character, then the first `';'`. -/
def takeThroughSemiAfter (l : List Char) : Option (List Char) :=
  match l.drop 6 with
  | [] => none
  | c :: cs => (takeUptoSemi cs).map (fun t => l.take 6 ++ c :: t)

/-- Python ``re.search(r'(SELECT[\s\S]+?;)', s, re.IGNORECASE)``: the match at
the earliest start position that completes. -/
def extractFrom : List Char → Option (List Char)
  | [] => none
  | c :: cs =>
    if startsWithSelect (c :: cs) then
      match takeThroughSemiAfter (c :: cs) with
      | some stmt => some stmt
      | none => extractFrom cs
    else extractFrom cs

/-- Lines 762-767: use the regex match if one exists, otherwise fall back
to the cleaned query. -/
def extractedQuery (l : List Char) : List Char :=
  match extractFrom l with
  | some s => s
  | none => l

/-- Split at the first backtick: `some (before, after)` when one exists. -/
def splitAtBacktick : List Char → Option (List Char × List Char)
  | [] => none
  | c :: cs =>
    if c = backtick then some ([], cs)
    else (splitAtBacktick cs).map (fun p => (c :: p.1, p.2))

/-- Fuelled scanner for ``re.sub(r'`([^`]+)`', r'"\1"', s)``: a pair of
backticks around a nonempty backtick-free span becomes double quotes; a
backtick that opens no such pair is copied unchanged.  One unit of fuel
is spent per emitted position, and the fuel `l.length` never runs out. -/
def subBTAux : Nat → List Char → List Char
  | 0, l => l
  | _ + 1, [] => []
  | fuel + 1, c :: cs =>
    if c = backtick then
      match splitAtBacktick cs with
      | some (content, rest) =>
        if content = [] then c :: subBTAux fuel cs
        else '"' :: (content ++ '"' :: subBTAux fuel rest)
      | none => c :: subBTAux fuel cs
    else c :: subBTAux fuel cs

/-- Python ``re.sub(r'`([^`]+)`', r'"\1"', s)`` (line 769). -/
def subBackticks (l : List Char) : List Char := subBTAux l.length l

/-- Substring occurrence test: does `pat` occur contiguously in the list? -/
def containsSubL (pat : List Char) : List Char → Bool
  | [] => pat.isEmpty
  | c :: cs => pat.isPrefixOf (c :: cs) || containsSubL pat cs

/-- Python `'limit' in extracted_query.lower()`: a plain substring test. -/
def containsLimit (l : List Char) : Bool :=
  containsSubL "limit".toList (lowerL l)

def natChars (n : Nat) : List Char := (toString n).toList

/-- Lines 773-774: `extracted_query += f" LIMIT {limit}"` when the
lowercased text does not contain the substring `'limit'`. -/
def appendLimit (l : List Char) (lim : Nat) : List Char :=
  if containsLimit l then l else l ++ (" LIMIT ".toList ++ natChars lim)

/-- The cleaning `_execute_sql_query` performs before execution
(lines 756-769): strip, remove fences, strip, extract, normalize
backticks. -/
def cleanedStatement (q : List Char) : List Char :=
  subBackticks (extractedQuery (stripL (dropFenceClose (dropFenceOpen (stripL q)))))

/-- The statement text actually handed to `conn.execute` (lines 770-775). -/
def executedStatement (q : List Char) (lim : Nat) : List Char :=
  appendLimit (cleanedStatement q) lim

/-- The substitute statement of `_generate_sql_query` (lines 742 and 748):
`f"SELECT * FROM {table_name} LIMIT 10"` — the limit is the literal 10. -/
def fallbackStmt (table : List Char) : List Char :=
  "SELECT * FROM ".toList ++ table ++ " LIMIT 10".toList

/-- The function `_generate_sql_query` (lines 709-748): the completion call is
`llmResp` (`.error` models it raising, handled by the outer `except`
which also returns the substitute); its content is stripped and kept
only when `sql_query.lower().startswith('select')`. -/
def genSqlQuery (llmResp : Except String (List Char)) (table : List Char) : List Char :=
  match llmResp with
  | .error _ => fallbackStmt table
  | .ok content =>
    let q := stripL content
    if startsWithSelect q then q else fallbackStmt table

/-- The substitute statement as the claim words it:
`SELECT * FROM <table> LIMIT <limit>` with the caller-supplied limit.
Stated from the claim text only, for comparison with `fallbackStmt`. -/
def claimSubstitute (table : List Char) (lim : Nat) : List Char :=
  "SELECT * FROM ".toList ++ table ++ " LIMIT ".toList ++ natChars lim

/-- The result dictionary of `_execute_sql_query` (columns omitted). -/
structure SqlExecResult where
  data : List (List String)
  rowCount : Nat
  errorMsg : Option String
deriving DecidableEq, Repr

/-- The function `_execute_sql_query` (lines 750-790) with the database connection
abstracted as `dbExec`: on success `row_count = len(data)` and no error;
on an execution error the message is captured and an empty result with
`row_count = 0` is returned instead of raising. -/
def execSqlQuery (dbExec : List Char → Except String (List (List String)))
    (q : List Char) (lim : Nat) : SqlExecResult :=
  match dbExec (executedStatement q lim) with
  | .ok rows => ⟨rows, rows.length, none⟩
  | .error e => ⟨[], 0, some e⟩

/-- Split into whitespace-separated words (accumulator holds the current
word reversed). -/
def wordsAux : List Char → List Char → List (List Char)
  | [], acc => if acc = [] then [] else [acc.reverse]
  | c :: cs, acc =>
    if c.isWhitespace then
      (if acc = [] then wordsAux cs [] else acc.reverse :: wordsAux cs [])
    else wordsAux cs (c :: acc)

/-- The spec-side reading of "a `LIMIT` clause is present": the statement
contains the standalone keyword `limit` (case-insensitive).  Stated from
the spec's words, for comparison with the code's substring test
`containsLimit`. -/
def specHasLimitClause (l : List Char) : Bool :=
  (wordsAux (lowerL l) []).contains ("limit".toList)

/-! ## `VectorStore._cosine_similarity`
(`backend/app/rag_utils.py`, lines 26-38)

IEEE floats are idealized as real numbers: `np.dot` is the elementwise
product-sum, `np.linalg.norm` the square root of the self-dot.  The
code's guards are reproduced exactly: empty vector or length mismatch
first, then a zero norm, each returning `0.0`. -/

/-- Python `np.dot` on two equal-length float lists (the truncating
zip-fold; the code only reaches it after the length check). -/
noncomputable def dotL : List ℝ → List ℝ → ℝ
  | x :: xs, y :: ys => x * y + dotL xs ys
  | _, _ => 0

/-- Python `np.linalg.norm`. -/
noncomputable def normL (a : List ℝ) : ℝ := Real.sqrt (dotL a a)

open Classical in
/-- The function `_cosine_similarity`. -/
noncomputable def cosineSim (a b : List ℝ) : ℝ :=
  if a.isEmpty ∨ b.isEmpty ∨ a.length ≠ b.length then 0
  else if normL a = 0 ∨ normL b = 0 then 0
  else dotL a b / (normL a * normL b)

/-! ## Concrete fixtures used by the evaluation theorems below -/

/-- A similarity function that scores every pair at 1. -/
def simOne : List ℚ → List ℚ → ℚ := fun _ _ => 1

/-- A file whose `restricted_users` list names only user 2 (an allow-list). -/
def fileR : FileM := ⟨1, [2]⟩

def chunkR : ChunkM := ⟨1, fileR, "pdf", some [1], "secret"⟩

def storeR : StoreM := ⟨[chunkR]⟩

/-- An administrator (role `UserRole.ADMIN`) who is not on `fileR`'s list. -/
def adminUser : UserM := ⟨1, .admin⟩

/-- An unrestricted file. -/
def fileOpen : FileM := ⟨2, []⟩

def chunkId2 : ChunkM := ⟨2, fileOpen, "pdf", some [1], "b"⟩

def chunkId1 : ChunkM := ⟨1, fileOpen, "pdf", some [1], "a"⟩

/-- A store whose database enumeration yields chunk id 2 before chunk id 1. -/
def store9 : StoreM := ⟨[chunkId2, chunkId1]⟩

/-- A SQL-capable file whose decision completion call raises `"boom"`. -/
def fDecisionBoom : FileProcM :=
  ⟨true, .error "boom", .ok ([], []), .ok ([], []), .ok ([], [])⟩

/-- A semantic-only file contributing one semantic result. -/
def fSemantic7 : FileProcM :=
  ⟨false, .ok "semantic", .ok ([], []), .ok ([], []), .ok ([], [7])⟩

/-- A SQL-capable file whose decision succeeds but whose engine call raises. -/
def fEngineFail : FileProcM :=
  ⟨true, .ok "sql", .error "db down", .ok ([], []), .ok ([], [])⟩

/-! # Theorems -/

/-! ## C5 — aggregation precedence -/

/-- C5: after aggregation across all files in one turn, `response_type`
is determined with fixed precedence from the two accumulated result
lists: both non-empty gives `hybrid`, only SQL non-empty gives
`sql_primary`, only semantic non-empty gives `semantic_primary`, and
neither gives `no_results` (`main.py`, lines 430-438). -/
theorem aggregation_precedence_c5 {α β : Type} (sql : List α) (sem : List β) :
    (sql ≠ [] → sem ≠ [] → responseType sql sem = "hybrid") ∧
    (sql ≠ [] → sem = [] → responseType sql sem = "sql_primary") ∧
    (sql = [] → sem ≠ [] → responseType sql sem = "semantic_primary") ∧
    (sql = [] → sem = [] → responseType sql sem = "no_results") := by
  refine ⟨?_, ?_, ?_, ?_⟩ <;> intro h1 h2 <;>
    simp [responseType, List.isEmpty_iff, h1, h2]

/-- Closed instance of `aggregation_precedence_c5`. -/
theorem aggregation_precedence_c5_witness :
    responseType [1] [2] = "hybrid" ∧
    responseType ([] : List Nat) ([] : List Nat) = "no_results" :=
  ⟨(aggregation_precedence_c5 [1] [2]).1 (by simp) (by simp),
   (aggregation_precedence_c5 ([] : List Nat) ([] : List Nat)).2.2.2 rfl rfl⟩

/-! ## C8 — empty-input answer synthesis -/

/-- C8 counterexample: on an empty result list the synthesizer returns
the fixed response and empty sources without a model call, but the
returned dictionary has **no** `success` key (lines 462-466 of
`rag_utils.py` build `{"response": ..., "sources": []}` only), so
`success = true` fails. -/
theorem insights_empty_missing_success_c8 :
    generateInsights (fun _ => "answer") "q" [] =
      ⟨noInfoMsg, [], none, false⟩ ∧
    (generateInsights (fun _ => "answer") "q" []).success ≠ some true :=
  ⟨rfl, by decide⟩

/-- C8 amended: with an empty result list the synthesizer returns the
fixed "no relevant information" response with an empty sources list and
no `success` entry, without calling the completion provider. -/
theorem insights_empty_input_c8 (llm : String → String) (query : String) :
    generateInsights llm query [] =
      { response := noInfoMsg, sources := [], success := none, llmCalled := false } :=
  rfl

/-! ## C4 — per-file failure isolation -/

/-- C4 counterexample: an exception in the retrieval-path decision step
of the first file aborts the whole loop (`main.py` lines 381-393 sit
outside the per-file `try`), losing the second file's results, although
the second file alone would contribute them. -/
theorem decision_error_aborts_turn_c4 :
    chatLoop [fDecisionBoom, fSemantic7] = .error "boom" ∧
    chatLoop [fSemantic7] = .ok ([], [7]) :=
  ⟨rfl, rfl⟩

/-- C4 amended: an exception of a *dispatched engine call* is isolated —
if no decision step raises, the loop completes and every file whose
engine call failed contributes nothing while all other files'
contributions are kept. -/
theorem engine_errors_isolated_c4 (files : List FileProcM)
    (h : ∀ f ∈ files, f.sqlCapable = true → exceptIsOk f.decideStep = true) :
    chatLoop files = .ok (aggregateRuns files) := by
  induction files with
  | nil => rfl
  | cons f fs ih =>
    have hf : ∃ d, ragDecision f = .ok d := by
      by_cases hc : f.sqlCapable
      · have hok := h f (List.mem_cons_self f fs) hc
        cases hd : f.decideStep with
        | error e => rw [hd] at hok; exact absurd hok (by simp [exceptIsOk])
        | ok d => exact ⟨pyStripLower d, by simp [ragDecision, hc, hd, Except.map]⟩
      · exact ⟨"semantic", by simp [ragDecision, hc]⟩
    obtain ⟨d, hd⟩ := hf
    have ih' := ih (fun g hg => h g (List.mem_cons_of_mem f hg))
    cases hdr : dispatchRun f d with
    | error e =>
      simp [chatLoop, hd, hdr, ih', aggregateRuns, fileContrib]
    | ok c =>
      simp [chatLoop, hd, hdr, ih', aggregateRuns, fileContrib]

/-- Closed instance of `engine_errors_isolated_c4`: the first file's
engine call raises and is skipped, the second file's semantic results
survive. -/
theorem engine_errors_isolated_c4_witness :
    chatLoop [fEngineFail, fSemantic7] = .ok ([], [7]) := by
  have h := engine_errors_isolated_c4 [fEngineFail, fSemantic7] (by decide)
  exact h.trans (congrArg Except.ok (by decide))

/-! ## Search-pipeline helper lemmas -/

theorem scoreLe_trans : ∀ a b c : ResultM, scoreLe a b → scoreLe b c → scoreLe a c := by
  intro a b c hab hbc
  simp only [scoreLe, decide_eq_true_eq] at *
  exact le_trans hbc hab

theorem scoreLe_total : ∀ a b : ResultM, scoreLe a b || scoreLe b a := by
  intro a b
  simp only [scoreLe, Bool.or_eq_true, decide_eq_true_eq]
  exact le_total b.score a.score

theorem scoreOne_eq_some (sim : List ℚ → List ℚ → ℚ) (q : List ℚ) (m : ℚ)
    (c : ChunkM) (r : ResultM) (h : scoreOne sim q m c = some r) : m ≤ r.score := by
  cases hemb : c.embedding with
  | none => simp [scoreOne, hemb] at h
  | some e =>
    by_cases hle : m ≤ sim q e
    · simp only [scoreOne, hemb, if_pos hle, Option.some.injEq] at h
      rw [← h]
      exact hle
    · simp [scoreOne, hemb, hle] at h

theorem minScore_le_of_mem_scoredResults (sim : List ℚ → List ℚ → ℚ) (q : List ℚ)
    (m : ℚ) (cs : List ChunkM) (r : ResultM) (h : r ∈ scoredResults sim q m cs) :
    m ≤ r.score := by
  simp only [scoredResults, List.mem_filterMap] at h
  obtain ⟨c, -, heq⟩ := h
  exact scoreOne_eq_some sim q m c r heq

/-- Evaluation of the search on `storeR` with no user: the restricted
chunk is scored and returned. -/
theorem searchSemantic_storeR_none :
    searchSemantic simOne storeR (some [1]) 5 0 none none = [⟨chunkR, 1⟩] := by
  have h : scoredResults simOne [1] 0 (candidateChunks storeR none none) =
      [⟨chunkR, 1⟩] := by decide
  simp only [searchSemantic, h, List.mergeSort_singleton]
  rfl

/-! ## C1 — access control: admin bypass -/

/-- C1: the code slip.  `can_access_file` (main.py) admits the admin to
every file, but `search_semantic` (rag_utils.py) tests
`current_user.role != 'admin'`, comparing the `UserRole` enum member to
a string — always true in Python — so the admin is filtered like a
non-admin and, not being on `fileR`'s allow-list, receives nothing from
it, while the no-user call returns the chunk. -/
theorem admin_filtered_despite_can_access_c1 :
    canAccessFile fileR adminUser = true ∧
    searchSemantic simOne storeR (some [1]) 5 0 none (some adminUser) = [] ∧
    searchSemantic simOne storeR (some [1]) 5 0 none none = [⟨chunkR, 1⟩] := by
  refine ⟨by decide, ?_, searchSemantic_storeR_none⟩
  have h : scoredResults simOne [1] 0 (candidateChunks storeR none (some adminUser)) =
      [] := by decide
  simp only [searchSemantic, h, List.mergeSort_nil]
  rfl

/-! ## C3 — semantic search guarantees -/

/-- C3: every semantic search output has length at most `limit`, every
returned score is at least `min_score`, and scores are non-increasing in
list order (filter at `min_score`, stable sort descending by score,
truncate to `limit`). -/
theorem search_semantic_guarantees_c3 (sim : List ℚ → List ℚ → ℚ) (store : StoreM)
    (qEmb : Option (List ℚ)) (limit : Nat) (minScore : ℚ)
    (fileType : Option String) (user : Option UserM) :
    (searchSemantic sim store qEmb limit minScore fileType user).length ≤ limit ∧
    (∀ r ∈ searchSemantic sim store qEmb limit minScore fileType user,
        minScore ≤ r.score) ∧
    List.Pairwise (fun a b : ResultM => b.score ≤ a.score)
      (searchSemantic sim store qEmb limit minScore fileType user) := by
  cases qEmb with
  | none => simp [searchSemantic]
  | some q =>
    by_cases hq : q.isEmpty
    · simp [searchSemantic, hq]
    · simp only [searchSemantic, if_neg hq]
      refine ⟨?_, ?_, ?_⟩
      · calc (((scoredResults sim q minScore
              (candidateChunks store fileType user)).mergeSort scoreLe).take limit).length
            = min limit ((scoredResults sim q minScore
              (candidateChunks store fileType user)).mergeSort scoreLe).length := by
              rw [List.length_take]
          _ ≤ limit := Nat.min_le_left _ _
      · intro r hr
        have hr' : r ∈ (scoredResults sim q minScore
            (candidateChunks store fileType user)).mergeSort scoreLe :=
          List.mem_of_mem_take hr
        rw [List.mem_mergeSort] at hr'
        exact minScore_le_of_mem_scoredResults sim q minScore _ r hr'
      · have hs := List.sorted_mergeSort scoreLe_trans scoreLe_total
          (scoredResults sim q minScore (candidateChunks store fileType user))
        have hs' : List.Pairwise (fun a b : ResultM => b.score ≤ a.score)
            ((scoredResults sim q minScore
              (candidateChunks store fileType user)).mergeSort scoreLe) := by
          refine hs.imp ?_
          intro a b hab
          simpa [scoreLe] using hab
        exact hs'.sublist (List.take_sublist _ _)

/-- Closed instance of `search_semantic_guarantees_c3` on `storeR`. -/
theorem search_semantic_guarantees_c3_witness :
    (searchSemantic simOne storeR (some [1]) 5 0 none none).length ≤ 5 ∧
    (0 : ℚ) ≤ (ResultM.mk chunkR 1).score := by
  have h := search_semantic_guarantees_c3 simOne storeR (some [1]) 5 0 none none
  refine ⟨h.1, h.2.1 ⟨chunkR, 1⟩ ?_⟩
  rw [searchSemantic_storeR_none]
  exact List.mem_singleton.mpr rfl

/-! ## C9 — tie ordering -/

/-- C9 counterexample: two equal-score chunks enumerated by the store as
ids `[2, 1]` come back in that enumeration order — the sort key is the
score alone, so ties are left in the database's incidental order, not
re-ordered by ascending chunk id (which would give `[1, 2]`). -/
theorem tie_enumeration_order_c9 :
    (searchSemantic simOne store9 (some [1]) 5 0 none none).map
        (fun r => r.chunk.id) = [2, 1] ∧
    ([2, 1] : List Nat) ≠ [1, 2] := by
  refine ⟨?_, by decide⟩
  have h1 : scoredResults simOne [1] 0 (candidateChunks store9 none none) =
      [⟨chunkId2, 1⟩, ⟨chunkId1, 1⟩] := by decide
  have hpair : List.Pairwise (fun a b : ResultM => scoreLe a b)
      [(⟨chunkId2, 1⟩ : ResultM), ⟨chunkId1, 1⟩] := by
    simp [scoreLe]
  have hsub : List.Sublist [(⟨chunkId2, 1⟩ : ResultM), ⟨chunkId1, 1⟩]
      ((scoredResults simOne [1] 0 (candidateChunks store9 none none)).mergeSort scoreLe) := by
    refine List.sublist_mergeSort scoreLe_trans scoreLe_total hpair ?_
    rw [h1]
  have hlen : ((scoredResults simOne [1] 0
      (candidateChunks store9 none none)).mergeSort scoreLe).length = 2 := by
    rw [List.length_mergeSort, h1]
    rfl
  have heq : (scoredResults simOne [1] 0
      (candidateChunks store9 none none)).mergeSort scoreLe =
      [⟨chunkId2, 1⟩, ⟨chunkId1, 1⟩] :=
    (hsub.eq_of_length (by rw [hlen]; rfl)).symm
  simp only [searchSemantic, heq]
  rfl

/-- C9 amended: the output order is a deterministic function of the
store's enumeration order — the sort is stable on the score alone, so
any two kept results with equal scores appear in the sorted list in
exactly their enumeration order (and repeated calls over an unchanged
enumeration trivially coincide, the pipeline being a pure function of
it).  No chunk-id tie-break exists. -/
theorem search_tie_stability_c9 (sim : List ℚ → List ℚ → ℚ) (store : StoreM)
    (qEmb : List ℚ) (minScore : ℚ) (fileType : Option String) (user : Option UserM)
    (r1 r2 : ResultM) (hscore : r1.score = r2.score)
    (hsub : List.Sublist [r1, r2] (scoredResults sim qEmb minScore
        (candidateChunks store fileType user))) :
    List.Sublist [r1, r2] ((scoredResults sim qEmb minScore
        (candidateChunks store fileType user)).mergeSort scoreLe) := by
  refine List.sublist_mergeSort scoreLe_trans scoreLe_total ?_ hsub
  simp [scoreLe, hscore]

/-- Closed instance of `search_tie_stability_c9` on `store9`. -/
theorem search_tie_stability_c9_witness :
    List.Sublist [(⟨chunkId2, 1⟩ : ResultM), ⟨chunkId1, 1⟩]
      ((scoredResults simOne [1] 0 (candidateChunks store9 none none)).mergeSort scoreLe) := by
  refine search_tie_stability_c9 simOne store9 [1] 0 none none _ _ rfl ?_
  have h1 : scoredResults simOne [1] 0 (candidateChunks store9 none none) =
      [⟨chunkId2, 1⟩, ⟨chunkId1, 1⟩] := by decide
  rw [h1]

/-! ## C10 — `current_user = None` -/

/-- C10 counterexample: the comparison clause "exactly as for an admin
caller" fails — with `current_user = None` the restricted chunk is a
candidate, while an actual admin caller is filtered (the role test
compares the enum member to the string `'admin'` and never matches), so
the two candidate sets differ. -/
theorem none_differs_from_admin_c10 :
    candidateChunks storeR none (some adminUser) ≠ candidateChunks storeR none none := by
  decide

/-- C10 amended: with `current_user = None` no access control is applied
at all — every chunk passing the modality filter, including chunks of
files with non-empty restriction lists, is a scoring candidate.  (This
is *not* the same as an actual admin caller, who is filtered like a
non-admin; see the counterexample.) -/
theorem none_user_no_access_control_c10 (store : StoreM) (fileType : Option String)
    (c : ChunkM) (hc : c ∈ store.chunks) (hm : modalityMatches fileType c = true) :
    c ∈ candidateChunks store fileType none := by
  simp only [candidateChunks]
  exact List.mem_filter.mpr ⟨hc, hm⟩

/-- Closed instance of `none_user_no_access_control_c10`: the chunk of
the restricted file is a candidate for the anonymous caller. -/
theorem none_user_no_access_control_c10_witness :
    chunkR ∈ candidateChunks storeR none none :=
  none_user_no_access_control_c10 storeR none chunkR (by decide) (by decide)

/-! ## C6 — cosine similarity -/

theorem dotL_nil_left (b : List ℝ) : dotL [] b = 0 := by cases b <;> rfl

theorem dotL_nil_right (a : List ℝ) : dotL a [] = 0 := by cases a <;> rfl

theorem dotL_self_nonneg (a : List ℝ) : 0 ≤ dotL a a := by
  induction a with
  | nil => simp [dotL_nil_left]
  | cons x xs ih =>
    simp only [dotL]
    nlinarith [mul_self_nonneg x]

theorem dotL_self_pos (a : List ℝ) (h : ∃ x ∈ a, x ≠ 0) : 0 < dotL a a := by
  induction a with
  | nil => simp at h
  | cons y ys ih =>
    simp only [dotL]
    obtain ⟨x, hx, hxne⟩ := h
    rcases List.mem_cons.mp hx with rfl | hmem
    · nlinarith [dotL_self_nonneg ys, mul_self_pos.mpr hxne]
    · nlinarith [ih ⟨x, hmem, hxne⟩, mul_self_nonneg y]

/-- Discrete Cauchy-Schwarz for the truncating product-sum. -/
theorem dotL_sq_le (a : List ℝ) : ∀ b : List ℝ, (dotL a b) ^ 2 ≤ dotL a a * dotL b b := by
  induction a with
  | nil =>
    intro b
    simp [dotL_nil_left]
  | cons x xs ih =>
    intro b
    cases b with
    | nil =>
      simp only [dotL_nil_right]
      nlinarith [dotL_self_nonneg (x :: xs)]
    | cons y ys =>
      simp only [dotL]
      have ihy := ih ys
      have hp := dotL_self_nonneg xs
      have hq := dotL_self_nonneg ys
      rcases eq_or_lt_of_le hq with h0 | hpos
      · have hd : dotL xs ys = 0 := by nlinarith
        rw [hd, ← h0]
        nlinarith [mul_self_nonneg y, mul_nonneg hp (mul_self_nonneg y)]
      · nlinarith [sq_nonneg (x * dotL ys ys - y * dotL xs ys),
          mul_nonneg (add_nonneg (mul_self_nonneg y) hq) (sub_nonneg.mpr ihy),
          hpos]

theorem abs_dotL_le (a b : List ℝ) : |dotL a b| ≤ normL a * normL b := by
  have h := dotL_sq_le a b
  have h1 : |dotL a b| = Real.sqrt ((dotL a b) ^ 2) := (Real.sqrt_sq_eq_abs _).symm
  rw [h1, normL, normL, ← Real.sqrt_mul (dotL_self_nonneg a)]
  exact Real.sqrt_le_sqrt h

/-- C6: the cosine scorer is total, returns a value in `[-1, 1]`,
returns `0.0` whenever either vector is empty, the lengths differ, or
either norm is zero, and scores every nonzero vector against itself at
exactly `1.0` (the float tolerance of the claim is exact over `ℝ`). -/
theorem cosine_similarity_c6 :
    (∀ a b : List ℝ, cosineSim a b ∈ Set.Icc (-1 : ℝ) 1) ∧
    (∀ a b : List ℝ, a = [] ∨ b = [] ∨ a.length ≠ b.length → cosineSim a b = 0) ∧
    (∀ a b : List ℝ, normL a = 0 ∨ normL b = 0 → cosineSim a b = 0) ∧
    (∀ v : List ℝ, (∃ x ∈ v, x ≠ 0) → cosineSim v v = 1) := by
  refine ⟨?_, ?_, ?_, ?_⟩
  · intro a b
    by_cases h1 : (a.isEmpty ∨ b.isEmpty ∨ a.length ≠ b.length)
    · simp only [cosineSim]
      rw [if_pos h1]
      constructor <;> norm_num
    · by_cases h2 : (normL a = 0 ∨ normL b = 0)
      · simp only [cosineSim]
        rw [if_neg h1, if_pos h2]
        constructor <;> norm_num
      · simp only [cosineSim]
        rw [if_neg h1, if_neg h2]
        push_neg at h2
        have hna : 0 < normL a :=
          lt_of_le_of_ne (Real.sqrt_nonneg _) (Ne.symm h2.1)
        have hnb : 0 < normL b :=
          lt_of_le_of_ne (Real.sqrt_nonneg _) (Ne.symm h2.2)
        have hprod : 0 < normL a * normL b := mul_pos hna hnb
        have hh : |dotL a b / (normL a * normL b)| ≤ 1 := by
          rw [abs_div, abs_of_pos hprod]
          exact (div_le_one hprod).mpr (abs_dotL_le a b)
        rw [Set.mem_Icc]
        exact abs_le.mp hh
  · intro a b h
    have h' : (a.isEmpty ∨ b.isEmpty ∨ a.length ≠ b.length) := by
      rcases h with h | h | h
      · exact Or.inl (by simp [h])
      · exact Or.inr (Or.inl (by simp [h]))
      · exact Or.inr (Or.inr h)
    simp only [cosineSim]
    rw [if_pos h']
  · intro a b h
    by_cases h1 : (a.isEmpty ∨ b.isEmpty ∨ a.length ≠ b.length)
    · simp only [cosineSim]
      rw [if_pos h1]
    · simp only [cosineSim]
      rw [if_neg h1, if_pos h]
  · intro v hv
    have hne : v ≠ [] := by rintro rfl; simp at hv
    have h1 : ¬(v.isEmpty ∨ v.isEmpty ∨ v.length ≠ v.length) := by
      simp [List.isEmpty_iff, hne]
    have hpos : 0 < dotL v v := dotL_self_pos v hv
    have hnorm : normL v ≠ 0 := by
      rw [normL]
      exact ne_of_gt (Real.sqrt_pos.mpr hpos)
    have h2 : ¬(normL v = 0 ∨ normL v = 0) := by simp [hnorm]
    simp only [cosineSim]
    rw [if_neg h1, if_neg h2]
    show dotL v v / (normL v * normL v) = 1
    rw [normL, Real.mul_self_sqrt hpos.le, div_self (ne_of_gt hpos)]

/-- Closed instance of `cosine_similarity_c6`. -/
theorem cosine_similarity_c6_witness :
    cosineSim [1] [1] = 1 ∧ cosineSim [1] [1, 2] = 0 ∧
    cosineSim [1] [1] ∈ Set.Icc (-1 : ℝ) 1 :=
  ⟨cosine_similarity_c6.2.2.2 [1] ⟨1, List.mem_singleton.mpr rfl, one_ne_zero⟩,
   cosine_similarity_c6.2.1 [1] [1, 2] (Or.inr (Or.inr (by simp))),
   cosine_similarity_c6.1 [1] [1]⟩

/-! ## C2/C7 — string-pipeline lemmas

The spine of C2 is that every cleaning stage of `_execute_sql_query`
preserves the property "begins with `SELECT` case-insensitively". -/

theorem sws_eq (l : List Char) :
    startsWithSelect l = true ↔ lowerL (l.take 6) = "select".toList := by
  simp [startsWithSelect]

theorem length_ge_of_sws (l : List Char) (h : startsWithSelect l = true) :
    6 ≤ l.length := by
  rw [sws_eq] at h
  have := congrArg List.length h
  simp only [lowerL, List.length_map, List.length_take] at this
  have h6 : ("select".toList).length = 6 := rfl
  omega

theorem toLower_mem_select_of_sws (l : List Char) (h : startsWithSelect l = true)
    (c : Char) (hc : c ∈ l.take 6) : Char.toLower c ∈ "select".toList := by
  rw [sws_eq] at h
  rw [← h]
  exact List.mem_map_of_mem Char.toLower hc

theorem ws_toLower_not_select (c : Char) (h : c.isWhitespace = true) :
    Char.toLower c ∉ "select".toList := by
  simp only [Char.isWhitespace, Bool.or_eq_true, decide_eq_true_eq] at h
  rcases h with ((h | h) | h) | h <;> subst h <;> decide

theorem backtick_toLower_not_select : Char.toLower backtick ∉ "select".toList := by
  decide

theorem newline_toLower_not_select : Char.toLower '\n' ∉ "select".toList := by
  decide

/-- If `p ++ t` begins with `SELECT` and no character of `t` can occur in
a lowered `select`, the whole prefix lives inside `p`. -/
theorem six_le_of_sws_append (p t : List Char)
    (h : startsWithSelect (p ++ t) = true)
    (ht : ∀ c ∈ t, Char.toLower c ∉ "select".toList) : 6 ≤ p.length := by
  by_contra hlt
  push_neg at hlt
  have hmap : lowerL ((p ++ t).take 6) = "select".toList := (sws_eq _).mp h
  cases t with
  | nil =>
    rw [List.append_nil] at hmap
    have := congrArg List.length hmap
    simp only [lowerL, List.length_map, List.length_take] at this
    have h6 : ("select".toList).length = 6 := rfl
    omega
  | cons x t' =>
    rw [List.take_append_eq_append_take, List.take_of_length_le (le_of_lt hlt)] at hmap
    have hk : 6 - p.length = (6 - p.length - 1) + 1 := by omega
    rw [hk, List.take_succ_cons] at hmap
    have hx : Char.toLower x ∈ "select".toList := by
      rw [← hmap]
      exact List.mem_map_of_mem Char.toLower
        (List.mem_append_right _ (List.mem_cons_self _ _))
    exact ht x (List.mem_cons_self x t') hx

theorem sws_of_append (p t : List Char) (h : startsWithSelect (p ++ t) = true)
    (ht : ∀ c ∈ t, Char.toLower c ∉ "select".toList) :
    startsWithSelect p = true := by
  have h6 := six_le_of_sws_append p t h ht
  rw [sws_eq] at h ⊢
  rwa [List.take_append_eq_append_take, Nat.sub_eq_zero_of_le h6, List.take_zero,
    List.append_nil] at h

theorem sws_append_of_sws (p rest : List Char) (h : startsWithSelect p = true) :
    startsWithSelect (p ++ rest) = true := by
  have h6 := length_ge_of_sws p h
  rw [sws_eq] at h ⊢
  rwa [List.take_append_eq_append_take, Nat.sub_eq_zero_of_le h6, List.take_zero,
    List.append_nil]

theorem head_toLower_of_sws (c : Char) (cs : List Char)
    (h : startsWithSelect (c :: cs) = true) : Char.toLower c = 's' := by
  have : Char.toLower c ∈ "select".toList :=
    toLower_mem_select_of_sws (c :: cs) h c (by
      rw [show (6 : Nat) = 5 + 1 from rfl, List.take_succ_cons]
      exact List.mem_cons_self _ _)
  have hsel : "select".toList = ['s', 'e', 'l', 'e', 'c', 't'] := rfl
  rw [sws_eq] at h
  rw [show (6 : Nat) = 5 + 1 from rfl, List.take_succ_cons] at h
  simp only [lowerL, List.map_cons, hsel, List.cons.injEq] at h
  exact h.1

theorem head_not_ws_of_sws (c : Char) (cs : List Char)
    (h : startsWithSelect (c :: cs) = true) : c.isWhitespace = false := by
  by_contra hw
  have hw' : c.isWhitespace = true := by
    cases hCase : c.isWhitespace
    · exact absurd hCase hw
    · rfl
  have h1 := head_toLower_of_sws c cs h
  have h2 := ws_toLower_not_select c hw'
  rw [h1] at h2
  exact h2 (by decide)

theorem head_ne_backtick_of_sws (c : Char) (cs : List Char)
    (h : startsWithSelect (c :: cs) = true) : c ≠ backtick := by
  intro hc
  have h1 := head_toLower_of_sws c cs h
  rw [hc] at h1
  exact absurd h1 (by decide)

theorem trimLeftL_of_sws (l : List Char) (h : startsWithSelect l = true) :
    trimLeftL l = l := by
  cases l with
  | nil => rfl
  | cons c cs =>
    simp [trimLeftL, head_not_ws_of_sws c cs h]

theorem trimRightL_decomp (l : List Char) :
    ∃ t, l = trimRightL l ++ t ∧ ∀ c ∈ t, c.isWhitespace = true := by
  induction l with
  | nil => exact ⟨[], rfl, by simp⟩
  | cons c cs ih =>
    obtain ⟨t, ht, htw⟩ := ih
    by_cases hc : trimRightL cs = [] ∧ c.isWhitespace = true
    · refine ⟨c :: cs, ?_, ?_⟩
      · have hz : trimRightL (c :: cs) = [] := by
          simp only [trimRightL]
          rw [if_pos]
          exact ⟨hc.1, hc.2⟩
        rw [hz, List.nil_append]
      · intro x hx
        rcases List.mem_cons.mp hx with rfl | hmem
        · exact hc.2
        · have hcst : cs = t := by rw [hc.1] at ht; simpa using ht
          exact htw x (hcst ▸ hmem)
    · have hz : trimRightL (c :: cs) = c :: trimRightL cs := by
        simp only [trimRightL]
        rw [if_neg]
        intro hcc
        exact hc ⟨hcc.1, by simp [hcc.2]⟩
      refine ⟨t, ?_, htw⟩
      rw [hz, List.cons_append, ← ht]

theorem trimRightL_of_sws (l : List Char) (h : startsWithSelect l = true) :
    startsWithSelect (trimRightL l) = true := by
  obtain ⟨t, ht, htw⟩ := trimRightL_decomp l
  rw [ht] at h
  exact sws_of_append _ t h (fun c hc => ws_toLower_not_select c (htw c hc))

theorem stripL_of_sws (l : List Char) (h : startsWithSelect l = true) :
    startsWithSelect (stripL l) = true := by
  unfold stripL
  rw [trimLeftL_of_sws l h]
  exact trimRightL_of_sws l h

theorem dropFenceOpen_of_sws (l : List Char) (h : startsWithSelect l = true) :
    dropFenceOpen l = l := by
  match l with
  | [] => rfl
  | [a] => rfl
  | [a, b] => rfl
  | a :: b :: c :: rest =>
    have hab := head_ne_backtick_of_sws a _ h
    simp only [dropFenceOpen]
    rw [if_neg]
    intro hcc
    exact hab hcc.1

theorem reverse_three (l : List Char) (a b c : Char) (rest : List Char)
    (h : l.reverse = a :: b :: c :: rest) : l = rest.reverse ++ [c, b, a] := by
  have := congrArg List.reverse h
  simpa [List.append_assoc] using this

theorem reverse_four (l : List Char) (a b c d : Char) (rest : List Char)
    (h : l.reverse = a :: b :: c :: d :: rest) :
    l = rest.reverse ++ [d, c, b, a] := by
  have := congrArg List.reverse h
  simpa [List.append_assoc] using this

theorem dropFenceClose_of_sws (l : List Char) (h : startsWithSelect l = true) :
    startsWithSelect (dropFenceClose l) = true := by
  rcases hrev : l.reverse with _ | ⟨a, _ | ⟨b, _ | ⟨c, rest⟩⟩⟩
  · simpa [dropFenceClose, hrev] using h
  · simpa [dropFenceClose, hrev] using h
  · simpa [dropFenceClose, hrev] using h
  · simp only [dropFenceClose, hrev]
    by_cases h3 : a = backtick ∧ b = backtick ∧ c = backtick
    · rw [if_pos h3]
      have hl := reverse_three l a b c rest hrev
      rw [hl] at h
      refine sws_of_append _ _ h ?_
      intro x hx
      have hxs : x = c ∨ x = b ∨ x = a := by simpa using hx
      rcases hxs with rfl | rfl | rfl
      · rw [h3.2.2]; exact backtick_toLower_not_select
      · rw [h3.2.1]; exact backtick_toLower_not_select
      · rw [h3.1]; exact backtick_toLower_not_select
    · rw [if_neg h3]
      cases rest with
      | nil => exact h
      | cons d rest2 =>
        show startsWithSelect
          (if a = '\n' ∧ b = backtick ∧ c = backtick ∧ d = backtick then
            rest2.reverse ++ ['\n'] else l) = true
        by_cases h4 : a = '\n' ∧ b = backtick ∧ c = backtick ∧ d = backtick
        · rw [if_pos h4]
          have hl := reverse_four l a b c d rest2 hrev
          rw [hl] at h
          have hsws2 : startsWithSelect rest2.reverse = true := by
            refine sws_of_append _ _ h ?_
            intro x hx
            have hxs : x = d ∨ x = c ∨ x = b ∨ x = a := by simpa using hx
            rcases hxs with rfl | rfl | rfl | rfl
            · rw [h4.2.2.2]; exact backtick_toLower_not_select
            · rw [h4.2.2.1]; exact backtick_toLower_not_select
            · rw [h4.2.1]; exact backtick_toLower_not_select
            · rw [h4.1]; exact newline_toLower_not_select
          exact sws_append_of_sws _ _ hsws2
        · rw [if_neg h4]
          exact h

theorem sws_take6 (l : List Char) (h : startsWithSelect l = true) :
    startsWithSelect (l.take 6) = true := by
  rw [sws_eq] at h ⊢
  rwa [List.take_take, Nat.min_self]

theorem sws_take6_append (l rest : List Char) (h : startsWithSelect l = true) :
    startsWithSelect (l.take 6 ++ rest) = true :=
  sws_append_of_sws _ rest (sws_take6 l h)

theorem takeThroughSemiAfter_sws (l s : List Char) (h : startsWithSelect l = true)
    (he : takeThroughSemiAfter l = some s) : startsWithSelect s = true := by
  cases hdrop : l.drop 6 with
  | nil => rw [takeThroughSemiAfter, hdrop] at he; exact absurd he (by simp)
  | cons c cs =>
    rw [takeThroughSemiAfter, hdrop] at he
    rw [Option.map_eq_some'] at he
    obtain ⟨t, -, hst⟩ := he
    rw [← hst]
    exact sws_take6_append l (c :: t) h

theorem extractFrom_sws (l : List Char) :
    ∀ s, extractFrom l = some s → startsWithSelect s = true := by
  induction l with
  | nil => intro s h; exact absurd h (by simp [extractFrom])
  | cons c cs ih =>
    intro s h
    by_cases hsw : startsWithSelect (c :: cs) = true
    · rw [extractFrom, if_pos hsw] at h
      cases hts : takeThroughSemiAfter (c :: cs) with
      | some stmt =>
        rw [hts] at h
        cases h
        exact takeThroughSemiAfter_sws _ _ hsw hts
      | none =>
        rw [hts] at h
        exact ih s h
    · rw [extractFrom, if_neg hsw] at h
      exact ih s h

theorem extractedQuery_of_sws (l : List Char) (h : startsWithSelect l = true) :
    startsWithSelect (extractedQuery l) = true := by
  cases hef : extractFrom l with
  | none => rw [extractedQuery, hef]; exact h
  | some s => rw [extractedQuery, hef]; exact extractFrom_sws l s hef

theorem subBTAux_append (p : List Char) (hp : ∀ c ∈ p, c ≠ backtick) :
    ∀ rest fuel, subBTAux (p.length + fuel) (p ++ rest) = p ++ subBTAux fuel rest := by
  induction p with
  | nil => intro rest fuel; simp
  | cons c p' ih =>
    intro rest fuel
    have hch : c ≠ backtick := hp c (List.mem_cons_self _ _)
    have hlen : (c :: p').length + fuel = (p'.length + fuel) + 1 := by
      simp [List.length_cons]
      omega
    rw [hlen, List.cons_append, subBTAux]
    rw [if_neg hch]
    rw [ih (fun x hx => hp x (List.mem_cons_of_mem c hx)) rest fuel]
    rfl

theorem mem_take6_ne_backtick (l : List Char) (h : startsWithSelect l = true) :
    ∀ c ∈ l.take 6, c ≠ backtick := by
  intro c hc heq
  have hmem := toLower_mem_select_of_sws l h c hc
  rw [heq] at hmem
  exact backtick_toLower_not_select hmem

theorem subBackticks_of_sws (l : List Char) (h : startsWithSelect l = true) :
    startsWithSelect (subBackticks l) = true := by
  have h6 := length_ge_of_sws l h
  have htake : (l.take 6).length = 6 := by
    rw [List.length_take]
    omega
  have key : subBackticks l = l.take 6 ++ subBTAux (l.drop 6).length (l.drop 6) := by
    unfold subBackticks
    conv_lhs => rw [show l = l.take 6 ++ l.drop 6 from (List.take_append_drop 6 l).symm]
    rw [List.length_append, subBTAux_append _ (mem_take6_ne_backtick l h)]
  rw [key]
  exact sws_take6_append l _ h

theorem appendLimit_of_sws (l : List Char) (lim : Nat)
    (h : startsWithSelect l = true) :
    startsWithSelect (appendLimit l lim) = true := by
  unfold appendLimit
  by_cases hc : containsLimit l = true
  · rw [if_pos hc]; exact h
  · rw [if_neg hc]; exact sws_append_of_sws _ _ h

theorem executedStatement_of_sws (g : List Char) (lim : Nat)
    (h : startsWithSelect g = true) :
    startsWithSelect (executedStatement g lim) = true := by
  have h1 : startsWithSelect (stripL g) = true := stripL_of_sws g h
  have e1 : dropFenceOpen (stripL g) = stripL g := dropFenceOpen_of_sws _ h1
  have h2 : startsWithSelect (dropFenceClose (stripL g)) = true :=
    dropFenceClose_of_sws _ h1
  have h3 := stripL_of_sws _ h2
  have h4 := extractedQuery_of_sws _ h3
  have h5 := subBackticks_of_sws _ h4
  unfold executedStatement cleanedStatement
  rw [e1]
  exact appendLimit_of_sws _ lim h5

theorem sws_fallback (table : List Char) :
    startsWithSelect (fallbackStmt table) = true := by
  unfold fallbackStmt
  rw [List.append_assoc]
  exact sws_append_of_sws _ _ (by decide)

theorem genSqlQuery_sws (llmResp : Except String (List Char)) (table : List Char) :
    startsWithSelect (genSqlQuery llmResp table) = true := by
  cases llmResp with
  | error e => exact sws_fallback table
  | ok content =>
    show startsWithSelect
      (if startsWithSelect (stripL content) = true then stripL content
        else fallbackStmt table) = true
    by_cases hsw : startsWithSelect (stripL content) = true
    · rw [if_pos hsw]; exact hsw
    · rw [if_neg hsw]; exact sws_fallback table

/-! ## C2 — SQL validation gate -/

/-- C2 counterexample: a non-`SELECT` model output is replaced by
`SELECT * FROM t1 LIMIT 10` — the literal `10` of `_generate_sql_query`,
not the caller-supplied limit (here 5, the chat endpoint's default
`rag_limit`), which never reaches the substitution. -/
theorem sql_gate_fixed_limit_c2 :
    genSqlQuery (.ok "DROP TABLE users".toList) "t1".toList = fallbackStmt "t1".toList ∧
    executedStatement (genSqlQuery (.ok "DROP TABLE users".toList) "t1".toList) 5 =
      "SELECT * FROM t1 LIMIT 10".toList ∧
    "SELECT * FROM t1 LIMIT 10".toList ≠ claimSubstitute "t1".toList 5 := by
  refine ⟨by decide, by decide, by decide⟩

/-- C2 amended: any model output that does not begin with `SELECT`
(case-insensitive) after whitespace stripping is discarded and replaced
by `SELECT * FROM <table> LIMIT 10` (the limit is the fixed literal 10,
not the caller-supplied limit); consequently the statement handed to the
execution layer always begins with `SELECT`. -/
theorem sql_gate_c2 (content table : List Char) (llmResp : Except String (List Char))
    (lim : Nat) :
    (startsWithSelect (stripL content) = false →
        genSqlQuery (.ok content) table = fallbackStmt table) ∧
    startsWithSelect (executedStatement (genSqlQuery llmResp table) lim) = true := by
  constructor
  · intro hf
    show (if startsWithSelect (stripL content) = true then stripL content
        else fallbackStmt table) = fallbackStmt table
    rw [if_neg]
    rw [hf]
    simp
  · exact executedStatement_of_sws _ lim (genSqlQuery_sws llmResp table)

/-- Closed instance of `sql_gate_c2`. -/
theorem sql_gate_c2_witness :
    genSqlQuery (.ok "here is the query you asked for".toList) "t1".toList =
      fallbackStmt "t1".toList ∧
    startsWithSelect
      (executedStatement (genSqlQuery (.ok "select a from t1".toList) "t1".toList) 5) =
      true :=
  ⟨(sql_gate_c2 "here is the query you asked for".toList "t1".toList
      (.ok "".toList) 5).1 (by decide),
   (sql_gate_c2 "".toList "t1".toList (.ok "select a from t1".toList) 5).2⟩

/-! ## C7 — LIMIT appending and error capture -/

/-- C7 counterexample: the code tests for the *substring* `'limit'`, not
for a `LIMIT` clause.  `SELECT limitless FROM t1` contains no `LIMIT`
clause (`specHasLimitClause` is the claim's clause reading), yet no
clause is appended because `limitless` contains the substring. -/
theorem limit_substring_not_clause_c7 :
    executedStatement "SELECT limitless FROM t1".toList 10 =
      "SELECT limitless FROM t1".toList ∧
    specHasLimitClause "SELECT limitless FROM t1".toList = false := by
  refine ⟨by decide, by decide⟩

/-- C7 amended: a `LIMIT <limit>` suffix is appended exactly when the
cleaned statement's lowercased text does not contain the substring
`'limit'` anywhere (so a statement mentioning `limit` inside an
identifier gets nothing appended even without a `LIMIT` clause); and on
any execution error the message is captured and an empty result set with
`row_count = 0` is returned instead of raising. -/
theorem sql_execution_c7 (dbExec : List Char → Except String (List (List String)))
    (q : List Char) (lim : Nat) :
    (containsLimit (cleanedStatement q) = false →
        executedStatement q lim =
          cleanedStatement q ++ (" LIMIT ".toList ++ natChars lim)) ∧
    (containsLimit (cleanedStatement q) = true →
        executedStatement q lim = cleanedStatement q) ∧
    (∀ e, dbExec (executedStatement q lim) = .error e →
        execSqlQuery dbExec q lim = ⟨[], 0, some e⟩) ∧
    (∀ rows, dbExec (executedStatement q lim) = .ok rows →
        execSqlQuery dbExec q lim = ⟨rows, rows.length, none⟩) := by
  refine ⟨?_, ?_, ?_, ?_⟩
  · intro hc
    unfold executedStatement appendLimit
    rw [if_neg]
    rw [hc]
    simp
  · intro hc
    unfold executedStatement appendLimit
    rw [if_pos hc]
  · intro e he
    unfold execSqlQuery
    rw [he]
  · intro rows hr
    unfold execSqlQuery
    rw [hr]

/-- Closed instance of `sql_execution_c7`: a failing execution is
captured as an empty result with the error message. -/
theorem sql_execution_c7_witness :
    execSqlQuery (fun _ => Except.error "db down") "SELECT a FROM t2;".toList 5 =
      ⟨[], 0, some "db down"⟩ :=
  (sql_execution_c7 (fun _ => Except.error "db down")
    "SELECT a FROM t2;".toList 5).2.2.1 "db down" rfl

end DocuChat
